import Mathlib

/-!
Verification development for the `chainit` fluent state-builder.

The JavaScript core (`src/core/shared.js`, `src/core/index.js` — the
synchronous "Immediate" engine — and `src/core/async.js` — the queued
"Queued" engine) is shallowly embedded below.  JavaScript values that the
engines inspect are modelled by `JVal`; records (the builder state) are
association lists from field names to values; object identity, which the
engines rely on (mutation in place, copy-on-write, closure-captured
references), is modelled with an explicit heap of records addressed by
natural numbers, and the asynchronous engine's per-proxy closure variable
`obj` is modelled as a cell holding an address.
-/

/-- A JavaScript value as far as the chainit engines inspect values:
`undefined` and `jnull` are `undefined`/`null` (the nullish values), `skip` is
the `SKIP` cancellation symbol from `src/core/shared.js`, `ref` is a
reference to a heap-allocated object, and `marker` is a function carrying
the `__isBuilderCallback` flag produced by the `_` wrapper. -/
inductive JVal where
  | undefined
  | jnull
  | skip
  | num (n : Int)
  | str (s : String)
  | jbool (b : Bool)
  | ref (a : Nat)
  | marker (id : Nat)
  deriving DecidableEq, Repr

/-- A failure signalled by middleware (`throw` in JavaScript), or the
`ReferenceError` raised by the synchronous engine's nested-builder branch,
which calls the undefined identifier `chainer` (`src/core/index.js`,
`const child = chainer(childTarget, options, root)`). -/
inductive JErr where
  | thrown (msg : String)
  | refErrChainer
  deriving DecidableEq, Repr

/-- A record: the key/value state a builder accumulates, in insertion
order (JavaScript objects preserve string-key insertion order). -/
abbrev RecV := List (String × JVal)

/-- The context handed to every middleware invocation:
`{ key: prop, obj: state, root }` where `obj` and `root` are references
(heap addresses) to the current record and the shared root record. -/
structure Ctx where
  key : String
  obj : Nat
  root : Nat
  deriving DecidableEq, Repr

/-- JavaScript property assignment `next[prop] = value` on a record:
an existing key is updated in place (keeping its position), a new key is
appended. -/
def setField (r : RecV) (f : String) (v : JVal) : RecV :=
  if r.any (fun p => p.1 = f) then
    r.map (fun p => if p.1 = f then (f, v) else p)
  else r ++ [(f, v)]

/-- JavaScript property read `state[prop]`: the stored value, or
`undefined` when the key is absent. -/
def getField (r : RecV) (f : String) : JVal :=
  match r.find? (fun p => p.1 = f) with
  | some p => p.2
  | none => .undefined

/-- A middleware function `(key, value, ctx) -> outcome`; a thrown
failure is modelled by `Except.error`. -/
abbrev MwFn := String → JVal → Ctx → Except JErr JVal

/-- A middleware entry as produced by `plugin(fn, { only, except })` in
`src/core/shared.js`; a bare middleware function is an entry with neither
filter set. -/
structure MwEntry where
  fn : MwFn
  only : Option (List String) := none
  except : Option (List String) := none

/-- From `src/core/shared.js`: `item.only && !item.only.includes(key)`. -/
def onlyBlocks : Option (List String) → String → Bool
  | some l, key => ! l.contains key
  | none, _ => false

/-- From `src/core/shared.js`: `item.except && item.except.includes(key)`. -/
def exceptBlocks : Option (List String) → String → Bool
  | some l, key => l.contains key
  | none, _ => false

/-- `shouldRun(item, key)` from `src/core/shared.js`: the middleware
filter deciding whether an entry applies to a field. -/
def shouldRun (item : MwEntry) (key : String) : Bool :=
  if onlyBlocks item.only key then false
  else if exceptBlocks item.except key then false
  else true

/-- `runList(list, key, value, ctx)` from `src/core/index.js`: fold a
middleware list over the incoming value.  Entries failing the filter are
skipped; a `SKIP` result is returned immediately; an `undefined` result
leaves the current value unchanged; any other result replaces it; a
thrown failure propagates. -/
def runList (list : List MwEntry) (key : String) (value : JVal) (ctx : Ctx) :
    Except JErr JVal :=
  match list with
  | [] => .ok value
  | item :: rest =>
    if shouldRun item key then
      match item.fn key value ctx with
      | .error e => .error e
      | .ok result =>
        if result = .skip then .ok .skip
        else if result = .undefined then runList rest key value ctx
        else runList rest key result ctx
    else runList rest key value ctx

/-- The synchronous builder configuration
`{ immutable = false, use = [], props = {} }`. -/
structure SCfg where
  immutable : Bool := false
  use : List MwEntry := []
  props : List (String × List MwEntry) := []

/-- Lookup `props[key]` (present keys only). -/
def lookupProps (props : List (String × List MwEntry)) (key : String) :
    Option (List MwEntry) :=
  (props.find? (fun p => p.1 = key)).map (fun p => p.2)

/-- `runMiddleware(key, value, ctx)` from `src/core/index.js`: the global
`use` list first; if it yielded `SKIP` stop; otherwise the per-field list
`props[key]`, when registered, seeded with the global output. -/
def runMiddleware (cfg : SCfg) (key : String) (value : JVal) (ctx : Ctx) :
    Except JErr JVal :=
  match runList cfg.use key value ctx with
  | .error e => .error e
  | .ok v =>
    if v = .skip then .ok .skip
    else match lookupProps cfg.props key with
      | some l => runList l key v ctx
      | none => .ok v

/-- The synchronous builder's state: a heap of records, the address held
by the builder's `state` closure variable, and the shared `root`
address. -/
structure SState where
  heap : List RecV
  state : Nat
  root : Nat
  deriving Repr

/-- `typeof value === "function" && value.__isBuilderCallback`. -/
def isMarker : JVal → Bool
  | .marker _ => true
  | _ => false

/-- One write through the synchronous engine's proxy setter
(`src/core/index.js`).  A nested-builder marker raises a
`ReferenceError` because the source calls the undefined identifier
`chainer`.  Otherwise middleware runs against the current record; a
thrown failure propagates with the state untouched; `SKIP` makes the
write a no-op; otherwise the result is committed — in place when
`immutable` is false, onto a freshly allocated shallow copy when it is
true. -/
def syncWrite (cfg : SCfg) (σ : SState) (prop : String) (arg : JVal) :
    SState × Option JErr :=
  if isMarker arg then (σ, some .refErrChainer)
  else
    match runMiddleware cfg prop arg ⟨prop, σ.state, σ.root⟩ with
    | .error e => (σ, some e)
    | .ok v =>
      if v = .skip then (σ, none)
      else if cfg.immutable then
        (⟨σ.heap ++ [setField (σ.heap.getD σ.state []) prop v],
          σ.heap.length, σ.root⟩, none)
      else
        (⟨σ.heap.set σ.state (setField (σ.heap.getD σ.state []) prop v),
          σ.state, σ.root⟩, none)

/-- A chain of writes on the synchronous builder; a raised failure aborts
the chain (the exception propagates out of the chained call). -/
def chainWrites (cfg : SCfg) (σ : SState) :
    List (String × JVal) → SState × Option JErr
  | [] => (σ, none)
  | (f, v) :: rest =>
    match syncWrite cfg σ f v with
    | (σ2, none) => chainWrites cfg σ2 rest
    | (σ2, some e) => (σ2, some e)

/-- `chainit(target)`: the initial record is allocated at address 0 and
`root = rootRef ?? target` is that same address for a top-level builder. -/
def initState (target : RecV) : SState := ⟨[target], 0, 0⟩

/-- What a property access on a builder proxy dispatches to. -/
inductive Member where
  | undefined
  | targetRef
  | rootRef
  | valueFn
  | tapFn
  | pipeFn
  | accessor (prop : String)
  deriving DecidableEq, Repr

/-- The synchronous proxy `get` trap (`src/core/index.js`): `then`,
`catch` and `finally` yield `undefined`; `$target`, `$root`, `$value`,
`tap` and `pipe` are built-in helpers; everything else is the generic
field getter/setter. -/
def syncGetMember (prop : String) : Member :=
  if prop = "then" ∨ prop = "catch" ∨ prop = "finally" then .undefined
  else if prop = "$target" then .targetRef
  else if prop = "$root" then .rootRef
  else if prop = "$value" then .valueFn
  else if prop = "tap" then .tapFn
  else if prop = "pipe" then .pipeFn
  else .accessor prop

/-- The asynchronous proxy `get` trap (`src/core/async.js`): as the
synchronous one but without `tap` and `pipe`. -/
def asyncGetMember (prop : String) : Member :=
  if prop = "then" ∨ prop = "catch" ∨ prop = "finally" then .undefined
  else if prop = "$target" then .targetRef
  else if prop = "$root" then .rootRef
  else if prop = "$value" then .valueFn
  else .accessor prop

/-- An asynchronous middleware as the queued engine invokes it: the
source calls each element of `use` directly (`await m(prop, value, ctx)`),
so an element must be callable; a thrown failure or rejected promise is
`Except.error`. -/
abbrev AMw := String → JVal → Ctx → Except JErr JVal

/-- The queued builder configuration.  `props` is destructured from the
options by `src/core/async.js` but never read by the engine. -/
structure ACfg where
  immutable : Bool := false
  use : List AMw := []
  props : List (String × List AMw) := []

/-- JavaScript nullish test, for the `(await m(...)) ?? value` pattern. -/
def nullish : JVal → Bool
  | .undefined => true
  | .jnull => true
  | _ => false

/-- The queued engine's middleware loop (`src/core/async.js`):
`for (const m of use) value = (await m(prop, value, ctx)) ?? value` —
every element of `use` runs unconditionally; a nullish result keeps the
previous value, any other result (including `SKIP`) replaces it. -/
def asyncUseFold (use : List AMw) (key : String) (value : JVal) (ctx : Ctx) :
    Except JErr JVal :=
  match use with
  | [] => .ok value
  | m :: rest =>
    match m key value ctx with
    | .error e => .error e
    | .ok r => asyncUseFold rest key (if nullish r then value else r) ctx

/-- A queued unit of work: the proxy closure cell whose `obj` variable
the task reads and rebinds, and the field/value of the write. -/
structure ATask where
  cell : Nat
  fieldName : String
  value : JVal
  deriving Repr

/-- The queued engine's mutable environment: the heap of records and the
per-proxy closure cells, each holding the record address its proxy's
`obj` variable currently refers to. -/
structure AEnv where
  heap : List RecV
  cells : List Nat
  deriving Repr

/-- One queued task body (`src/core/async.js`): read the record address
bound to the task's proxy at run time, run the `use` loop, then commit —
`{ ...obj }` plus assignment onto a fresh address in immutable mode,
in-place mutation otherwise — and rebind the proxy's `obj` variable. -/
def runTask (cfg : ACfg) (root : Nat) (env : AEnv) (t : ATask) :
    Except JErr AEnv :=
  let a := env.cells.getD t.cell 0
  match asyncUseFold cfg.use t.fieldName t.value ⟨t.fieldName, a, root⟩ with
  | .error e => .error e
  | .ok v =>
    if cfg.immutable then
      .ok ⟨env.heap ++ [setField (env.heap.getD a []) t.fieldName v],
           env.cells.set t.cell env.heap.length⟩
    else
      .ok ⟨env.heap.set a (setField (env.heap.getD a []) t.fieldName v),
           env.cells⟩

/-- Execution of the promise queue `queue = queue.then(task)`: tasks run
strictly one after another; once a task rejects, the queue is a rejected
promise and the `.then` callbacks of all later tasks are skipped, the
rejection propagating unchanged. -/
def runTasks (cfg : ACfg) (root : Nat) :
    List ATask → AEnv → AEnv × Option JErr
  | [], env => (env, none)
  | t :: ts, env =>
    match runTask cfg root env t with
    | .error e => (env, some e)
    | .ok env2 => runTasks cfg root ts env2

/-- The synchronous enqueue phase of a chained sequence of writes
`p.f1(v1).f2(v2)...`: each setter appends a task bound to the proxy it
was invoked on and returns `make(obj)` — a fresh proxy whose closure
variable is initialised to the address the invoking proxy holds at
enqueue time.  Returns the task list, the final cell table, and the cell
of the proxy the chain ends on. -/
def buildChain : List (String × JVal) → Nat → List Nat →
    List ATask × List Nat × Nat
  | [], c, cells => ([], cells, c)
  | (f, v) :: rest, c, cells =>
    let r := buildChain rest cells.length (cells ++ [cells.getD c 0])
    (⟨c, f, v⟩ :: r.1, r.2.1, r.2.2)

/-- A full queued run `chainitAsync(target).f1(v1)...fn(vn)`: the initial
record at address 0, cell 0 for the first proxy, all writes enqueued
(the chained calls return before any task runs, since tasks are
microtasks), then the queue executed.  Yields the final environment, the
queue's failure if any, and the cell of the final proxy. -/
def asyncChainRun (cfg : ACfg) (target : RecV) (ws : List (String × JVal)) :
    AEnv × Option JErr × Nat :=
  let b := buildChain ws 0 [0]
  let r := runTasks cfg 0 b.1 ⟨[target], b.2.1⟩
  (r.1, r.2, b.2.2)

/-- `$value()` on the proxy a chain of writes ends on: wait for the queue
(a rejected queue rejects the result), then return the record the final
proxy's `obj` variable refers to. -/
def asyncChainDrain (cfg : ACfg) (target : RecV)
    (ws : List (String × JVal)) : Except JErr RecV :=
  let r := asyncChainRun cfg target ws
  match r.2.1 with
  | some e => .error e
  | none => .ok (r.1.heap.getD (r.1.cells.getD r.2.2 0) [])

/-- Reference semantics used in theorem statements: apply a list of
writes one record at a time, in order, each through the queued engine's
`use` loop, stopping at the first failure. -/
def seqSpec (use : List AMw) : List (String × JVal) → RecV →
    RecV × Option JErr
  | [], r => (r, none)
  | (f, v) :: ws, r =>
    match asyncUseFold use f v ⟨f, 0, 0⟩ with
    | .error e => (r, some e)
    | .ok v2 => seqSpec use ws (setField r f v2)

/-- `seqSpec` packaged the way `$value()` reports it. -/
def seqDrain (use : List AMw) (ws : List (String × JVal)) (target : RecV) :
    Except JErr RecV :=
  match seqSpec use ws target with
  | (r, none) => .ok r
  | (_, some e) => .error e

/-- Following the spec's words (§4.2/§4.5), not the source: the two-stage
pass the spec prescribes for every queued write — the global pass, then,
only if it did not cancel, the per-field pass registered under
`props[field]`, seeded with the global output. -/
def specQueuedTwoStage (cfg : ACfg) (key : String) (value : JVal)
    (ctx : Ctx) : Except JErr JVal :=
  match asyncUseFold cfg.use key value ctx with
  | .error e => .error e
  | .ok v =>
    if v = .skip then .ok .skip
    else match (cfg.props.find? (fun p => p.1 = key)).map (fun p => p.2) with
      | some l => asyncUseFold l key v ctx
      | none => .ok v

/-- A cell table in which every proxy's `obj` variable refers to address
0 — the situation throughout a mutable-mode queued run, where no task
ever reallocates the record. -/
def zerosCells (cells : List Nat) : Prop := ∀ i, cells.getD i 0 = 0

/-- A middleware list none of whose elements ever throws or rejects. -/
def NoFail (use : List AMw) : Prop :=
  ∀ m ∈ use, ∀ k v c, ∃ r, m k v c = .ok r

/-- Total reference semantics for a failure-free queued run: the record
obtained by applying the writes in append order (the error branch is
unreachable under `NoFail` and keeps the record). -/
def seqRecord (use : List AMw) : List (String × JVal) → RecV → RecV
  | [], r => r
  | (f, v) :: ws, r =>
    match asyncUseFold use f v ⟨f, 0, 0⟩ with
    | .ok v2 => seqRecord use ws (setField r f v2)
    | .error _ => r

/-- Middleware incrementing numeric values. -/
def mwInc : AMw := fun _ v _ =>
  match v with
  | .num n => .ok (.num (n + 1))
  | _ => .ok v

/-- Middleware returning the cancel sentinel for every write. -/
def mwSkip : AMw := fun _ _ _ => .ok .skip

/-- Middleware throwing on writes to field `a` and passing every other
field through. -/
def mwFailOnA : AMw := fun k v _ =>
  if k = "a" then .error (.thrown "boom") else .ok v

/-- A synchronous middleware entry that always throws. -/
def entryThrow : MwEntry := ⟨fun _ _ _ => .error (.thrown "bad"), none, none⟩

/-- A synchronous middleware entry replacing every value with 7. -/
def entrySeven : MwEntry := ⟨fun _ _ _ => .ok (.num 7), none, none⟩

/-- Queued configuration with a per-field increment registered under
`props.a` and an empty global list. -/
def cfgPropsInc : ACfg := ⟨false, [], [("a", [mwInc])]⟩

/-- Queued configuration whose only global middleware cancels every
write. -/
def cfgAllSkip : ACfg := ⟨false, [mwSkip], []⟩

/-- Queued configuration whose only global middleware throws on field
`a`. -/
def cfgFailOnA : ACfg := ⟨false, [mwFailOnA], []⟩

/-- Queued mutable configuration with the numeric increment as global
middleware. -/
def cfgMutInc : ACfg := ⟨false, [mwInc], []⟩

theorem zerosCells_init : zerosCells [0] := by
  intro i
  cases i with
  | zero => rfl
  | succ n => simp [List.getD]

theorem zerosCells_append (cells : List Nat) (h : zerosCells cells)
    (k : Nat) (hk : k = 0) : zerosCells (cells ++ [k]) := by
  intro i
  by_cases hi : i < cells.length
  · rw [List.getD_append _ _ _ _ hi]
    exact h i
  · rw [List.getD_append_right _ _ _ _ (Nat.le_of_not_lt hi)]
    subst hk
    rcases Nat.lt_or_ge (i - cells.length) 1 with h1 | h1
    · interval_cases h2 : (i - cells.length)
      · rfl
    · simp [List.getD_eq_default, h1]

theorem buildChain_fields :
    ∀ (ws : List (String × JVal)) (c : Nat) (cells : List Nat),
      ((buildChain ws c cells).1.map fun t => (t.fieldName, t.value)) = ws := by
  intro ws
  induction ws with
  | nil => intro c cells; rfl
  | cons w rest ih =>
    intro c cells
    cases w with
    | mk f v => simp [buildChain, ih]

theorem buildChain_zeros :
    ∀ (ws : List (String × JVal)) (c : Nat) (cells : List Nat),
      zerosCells cells → zerosCells (buildChain ws c cells).2.1 := by
  intro ws
  induction ws with
  | nil => intro c cells h; exact h
  | cons w rest ih =>
    intro c cells h
    cases w with
    | mk f v =>
      exact ih cells.length (cells ++ [cells.getD c 0])
        (zerosCells_append cells h _ (h c))

theorem runTasks_mutable (cfg : ACfg) (h : cfg.immutable = false) :
    ∀ (ts : List ATask) (r : RecV) (cells : List Nat), zerosCells cells →
      runTasks cfg 0 ts ⟨[r], cells⟩ =
        (⟨[(seqSpec cfg.use (ts.map fun t => (t.fieldName, t.value)) r).1],
          cells⟩,
         (seqSpec cfg.use (ts.map fun t => (t.fieldName, t.value)) r).2) := by
  intro ts
  induction ts with
  | nil => intro r cells hz; rfl
  | cons t ts ih =>
    intro r cells hz
    have ha : cells.getD t.cell 0 = 0 := hz t.cell
    simp only [runTasks, runTask, ha, h, List.map_cons, seqSpec]
    cases hfold : asyncUseFold cfg.use t.fieldName t.value ⟨t.fieldName, 0, 0⟩ with
    | error e => simp
    | ok v =>
      simp only [Bool.false_eq_true, if_false, List.getD_cons_zero,
        List.set_cons_zero]
      exact ih (setField r t.fieldName v) cells hz

theorem asyncChainDrain_mutable (cfg : ACfg) (h : cfg.immutable = false)
    (target : RecV) (ws : List (String × JVal)) :
    asyncChainDrain cfg target ws = seqDrain cfg.use ws target := by
  have hfields := buildChain_fields ws 0 [0]
  have hz := buildChain_zeros ws 0 [0] zerosCells_init
  rcases hbc : buildChain ws 0 [0] with ⟨ts, cells1, last⟩
  rw [hbc] at hfields hz
  simp only at hfields hz
  have hrun := runTasks_mutable cfg h ts target cells1 hz
  rw [hfields] at hrun
  simp only [asyncChainDrain, asyncChainRun, hbc, hrun, seqDrain]
  cases hseq : seqSpec cfg.use ws target with
  | mk rec err =>
    cases err with
    | none =>
      have h0 := hz last
      simp only [List.getD, List.get?_eq_getElem?] at h0
      simp [List.getD, h0]
    | some e => simp

theorem runTask_props_irrel (i : Bool) (u : List AMw)
    (p p2 : List (String × List AMw)) (root : Nat) (env : AEnv) (t : ATask) :
    runTask ⟨i, u, p2⟩ root env t = runTask ⟨i, u, p⟩ root env t := rfl

theorem runTasks_props_irrel (i : Bool) (u : List AMw)
    (p p2 : List (String × List AMw)) (root : Nat) :
    ∀ (ts : List ATask) (env : AEnv),
      runTasks ⟨i, u, p2⟩ root ts env = runTasks ⟨i, u, p⟩ root ts env := by
  intro ts
  induction ts with
  | nil => intro env; rfl
  | cons t ts ih =>
    intro env
    simp only [runTasks, runTask_props_irrel i u p p2]
    cases runTask ⟨i, u, p⟩ root env t with
    | error e => rfl
    | ok env2 => exact ih env2

theorem asyncUseFold_nofail (use : List AMw) (h : NoFail use) :
    ∀ k v c, ∃ r, asyncUseFold use k v c = .ok r := by
  induction use with
  | nil => intro k v c; exact ⟨v, rfl⟩
  | cons m rest ih =>
    intro k v c
    obtain ⟨r0, hr0⟩ := h m (List.mem_cons_self m rest) k v c
    have hrest : NoFail rest := fun m2 hm2 => h m2 (List.mem_cons_of_mem m hm2)
    obtain ⟨r1, hr1⟩ := ih hrest k (if nullish r0 then v else r0) c
    exact ⟨r1, by simp [asyncUseFold, hr0, hr1]⟩

theorem seqSpec_nofail (use : List AMw) (h : NoFail use) :
    ∀ (ws : List (String × JVal)) (r : RecV),
      seqSpec use ws r = (seqRecord use ws r, none) := by
  intro ws
  induction ws with
  | nil => intro r; rfl
  | cons w rest ih =>
    intro r
    cases w with
    | mk f v =>
      obtain ⟨r0, hr0⟩ := asyncUseFold_nofail use h f v ⟨f, 0, 0⟩
      simp [seqSpec, seqRecord, hr0, ih]

theorem syncWrite_imm_heap (cfg : SCfg) (h : cfg.immutable = true)
    (σ : SState) (prop : String) (arg : JVal) :
    ∃ ext, (syncWrite cfg σ prop arg).1.heap = σ.heap ++ ext := by
  by_cases hm : isMarker arg
  · exact ⟨[], by simp [syncWrite, hm]⟩
  · cases hmw : runMiddleware cfg prop arg ⟨prop, σ.state, σ.root⟩ with
    | error e => exact ⟨[], by simp [syncWrite, hm, hmw]⟩
    | ok v =>
      by_cases hsk : v = .skip
      · exact ⟨[], by simp [syncWrite, hm, hmw, hsk]⟩
      · exact ⟨[setField (σ.heap.getD σ.state []) prop v],
          by simp [syncWrite, hm, hmw, hsk, h]⟩

theorem chainWrites_imm_heap (cfg : SCfg) (h : cfg.immutable = true) :
    ∀ (ws : List (String × JVal)) (σ : SState),
      ∃ ext, (chainWrites cfg σ ws).1.heap = σ.heap ++ ext := by
  intro ws
  induction ws with
  | nil => intro σ; exact ⟨[], by simp [chainWrites]⟩
  | cons w rest ih =>
    intro σ
    cases w with
    | mk f v =>
      obtain ⟨ext1, hext1⟩ := syncWrite_imm_heap cfg h σ f v
      rcases hsw : syncWrite cfg σ f v with ⟨σ2, oe⟩
      rw [hsw] at hext1
      simp only at hext1
      cases oe with
      | none =>
        obtain ⟨ext2, hext2⟩ := ih σ2
        exact ⟨ext1 ++ ext2,
          by simp [chainWrites, hsw, hext2, hext1, List.append_assoc]⟩
      | some e => exact ⟨ext1, by simp [chainWrites, hsw, hext1]⟩

/-- C6: for every middleware entry and field: an `only` set not
containing the field suppresses the entry; an `except` set containing the
field suppresses it even when the field is also in `only`; otherwise the
entry applies, and an entry with neither set always applies.  The filter
is a pure Boolean function. -/
theorem shouldRun_filter_semantics (item : MwEntry) (key : String) :
    (∀ l, item.only = some l → l.contains key = false →
      shouldRun item key = false)
    ∧ (∀ l, item.except = some l → l.contains key = true →
      shouldRun item key = false)
    ∧ (item.only = none → item.except = none → shouldRun item key = true)
    ∧ (∀ l, item.only = some l → l.contains key = true →
      item.except = none → shouldRun item key = true)
    ∧ (∀ lex, item.only = none → item.except = some lex →
      lex.contains key = false → shouldRun item key = true)
    ∧ (∀ l lex, item.only = some l → l.contains key = true →
      item.except = some lex → lex.contains key = false →
      shouldRun item key = true) := by
  obtain ⟨fn, o, ex⟩ := item
  refine ⟨?_, ?_, ?_, ?_, ?_, ?_⟩ <;>
    · intros
      simp_all [shouldRun, onlyBlocks, exceptBlocks]

/-- Witness for C6 at concrete entries: an `only` miss blocks, an
`except` hit blocks even with the field in `only`, and a filterless
entry always applies. -/
theorem shouldRun_filter_semantics_witness :
    shouldRun ⟨fun _ v _ => .ok v, some ["age"], none⟩ "name" = false
    ∧ shouldRun ⟨fun _ v _ => .ok v, some ["age"], some ["age"]⟩ "age" = false
    ∧ shouldRun ⟨fun _ v _ => .ok v, none, none⟩ "name" = true := by
  refine ⟨?_, ?_, ?_⟩
  · exact (shouldRun_filter_semantics ⟨fun _ v _ => .ok v, some ["age"], none⟩
      "name").1 ["age"] rfl (by decide)
  · exact (shouldRun_filter_semantics
      ⟨fun _ v _ => .ok v, some ["age"], some ["age"]⟩ "age").2.1
      ["age"] rfl (by decide)
  · exact (shouldRun_filter_semantics ⟨fun _ v _ => .ok v, none, none⟩
      "name").2.2.1 rfl rfl

/-- C10: a middleware returning `undefined` leaves the current value
unchanged in both engines; in the Immediate engine every other non-cancel
return value — including `null` and `false` — replaces the current value;
in the Queued engine a returned `null` is also treated as no-change, and
only non-nullish returns replace the value. -/
theorem middleware_return_value_semantics (key : String) (v r : JVal)
    (ctx : Ctx) :
    (r = .undefined →
      runList [⟨fun _ _ _ => .ok r, none, none⟩] key v ctx = .ok v
      ∧ asyncUseFold [fun _ _ _ => .ok r] key v ctx = .ok v)
    ∧ (r ≠ .undefined → r ≠ .skip →
      runList [⟨fun _ _ _ => .ok r, none, none⟩] key v ctx = .ok r)
    ∧ runList [⟨fun _ _ _ => .ok .jnull, none, none⟩] key v ctx = .ok .jnull
    ∧ runList [⟨fun _ _ _ => .ok (.jbool false), none, none⟩] key v ctx
        = .ok (.jbool false)
    ∧ (r = .jnull → asyncUseFold [fun _ _ _ => .ok r] key v ctx = .ok v)
    ∧ (nullish r = false →
      asyncUseFold [fun _ _ _ => .ok r] key v ctx = .ok r) := by
  refine ⟨?_, ?_, ?_, ?_, ?_, ?_⟩ <;>
    · intros
      simp_all [runList, asyncUseFold, shouldRun, onlyBlocks, exceptBlocks,
        nullish]

/-- Witness for C10 at concrete values: `null` replaces in the Immediate
engine but is no-change in the Queued engine, and `undefined` is
no-change in both. -/
theorem middleware_return_value_semantics_witness :
    runList [⟨fun _ _ _ => .ok .jnull, none, none⟩] "k" (.num 3) ⟨"k", 0, 0⟩
        = .ok .jnull
    ∧ asyncUseFold [fun _ _ _ => .ok .jnull] "k" (.num 3) ⟨"k", 0, 0⟩
        = .ok (.num 3)
    ∧ runList [⟨fun _ _ _ => .ok .undefined, none, none⟩] "k" (.num 3) ⟨"k", 0, 0⟩
        = .ok (.num 3)
    ∧ asyncUseFold [fun _ _ _ => .ok .undefined] "k" (.num 3) ⟨"k", 0, 0⟩
        = .ok (.num 3) := by
  refine ⟨?_, ?_, ?_, ?_⟩
  · exact (middleware_return_value_semantics "k" (.num 3) .jnull
      ⟨"k", 0, 0⟩).2.1 (by decide) (by decide)
  · exact (middleware_return_value_semantics "k" (.num 3) .jnull
      ⟨"k", 0, 0⟩).2.2.2.2.1 rfl
  · exact ((middleware_return_value_semantics "k" (.num 3) .undefined
      ⟨"k", 0, 0⟩).1 rfl).1
  · exact ((middleware_return_value_semantics "k" (.num 3) .undefined
      ⟨"k", 0, 0⟩).1 rfl).2

/-- C9: `then`, `catch` and `finally` yield `undefined` on both engines;
`$target`, `$root`, `$value` (plus `tap` and `pipe` on the Immediate
engine) dispatch to built-in accessors; the generic field accessor is
only ever produced for the accessed name itself, and never for a
reserved name — so a record field bearing a reserved name can never be
read or written through the chained field accessors. -/
theorem reserved_member_names :
    syncGetMember "then" = .undefined
    ∧ syncGetMember "catch" = .undefined
    ∧ syncGetMember "finally" = .undefined
    ∧ asyncGetMember "then" = .undefined
    ∧ asyncGetMember "catch" = .undefined
    ∧ asyncGetMember "finally" = .undefined
    ∧ syncGetMember "$target" = .targetRef
    ∧ syncGetMember "$root" = .rootRef
    ∧ syncGetMember "$value" = .valueFn
    ∧ syncGetMember "tap" = .tapFn
    ∧ syncGetMember "pipe" = .pipeFn
    ∧ asyncGetMember "$target" = .targetRef
    ∧ asyncGetMember "$root" = .rootRef
    ∧ asyncGetMember "$value" = .valueFn
    ∧ (∀ p q, syncGetMember p = .accessor q → p = q)
    ∧ (∀ p q, asyncGetMember p = .accessor q → p = q)
    ∧ (∀ p, p ∈ ["then", "catch", "finally", "$target", "$root", "$value",
        "tap", "pipe"] → ∀ q, syncGetMember p ≠ .accessor q)
    ∧ (∀ p, p ∈ ["then", "catch", "finally", "$target", "$root", "$value"] →
        ∀ q, asyncGetMember p ≠ .accessor q) := by
  refine ⟨rfl, rfl, rfl, rfl, rfl, rfl, rfl, rfl, rfl, rfl, rfl, rfl, rfl,
    rfl, ?_, ?_, ?_, ?_⟩
  · intro p q h
    unfold syncGetMember at h
    split_ifs at h
    simp_all
  · intro p q h
    unfold asyncGetMember at h
    split_ifs at h
    simp_all
  · intro p hp q
    fin_cases hp <;> simp [syncGetMember]
  · intro p hp q
    fin_cases hp <;> simp [asyncGetMember]

/-- Witness for C9: the generic accessor arises only for its own
non-reserved name, and `$value` never dispatches to a field accessor on
either engine. -/
theorem reserved_member_names_witness :
    ("name" = "name")
    ∧ (∀ q, syncGetMember "$value" ≠ .accessor q)
    ∧ (∀ q, asyncGetMember "$value" ≠ .accessor q) :=
  ⟨reserved_member_names.2.2.2.2.2.2.2.2.2.2.2.2.2.2.1 "name" "name" rfl,
   reserved_member_names.2.2.2.2.2.2.2.2.2.2.2.2.2.2.2.2.1 "$value"
     (by decide),
   reserved_member_names.2.2.2.2.2.2.2.2.2.2.2.2.2.2.2.2.2 "$value"
     (by decide)⟩

/-- C7: on the Immediate builder, a failure raised by any middleware
during a write propagates as that same failure out of the chained call,
and the state — heap and current-record reference — is exactly as it was
before the write: the commit never happens. -/
theorem immediate_failure_propagates_state_unchanged (cfg : SCfg)
    (σ : SState) (prop : String) (arg : JVal) (e : JErr)
    (hm : isMarker arg = false)
    (h : runMiddleware cfg prop arg ⟨prop, σ.state, σ.root⟩ = .error e) :
    syncWrite cfg σ prop arg = (σ, some e) := by
  simp [syncWrite, hm, h]

/-- Witness for C7: a throwing middleware makes the chained call fail
with that failure and leaves the initial state untouched. -/
theorem immediate_failure_propagates_state_unchanged_witness :
    syncWrite ⟨false, [entryThrow], []⟩ (initState []) "x" (.num 5)
      = (initState [], some (.thrown "bad")) :=
  immediate_failure_propagates_state_unchanged ⟨false, [entryThrow], []⟩
    (initState []) "x" (.num 5) (.thrown "bad") rfl rfl

/-- C8: on an Immediate builder with `immutable = true`, a committed
write allocates a fresh record — a shallow copy of the current record
with the field set — and moves the current-record reference to it, so the
reference changes on every committed write; every record that existed
before the write (in particular any snapshot captured earlier) is left
untouched, and stays untouched under any further chain of writes. -/
theorem immutable_write_fresh_reference (cfg : SCfg) (σ : SState)
    (prop : String) (arg v : JVal)
    (himm : cfg.immutable = true)
    (hm : isMarker arg = false)
    (hmw : runMiddleware cfg prop arg ⟨prop, σ.state, σ.root⟩ = .ok v)
    (hsk : v ≠ .skip)
    (hwf : σ.state < σ.heap.length) :
    (syncWrite cfg σ prop arg).2 = none
    ∧ (syncWrite cfg σ prop arg).1.state = σ.heap.length
    ∧ (syncWrite cfg σ prop arg).1.state ≠ σ.state
    ∧ (syncWrite cfg σ prop arg).1.heap
        = σ.heap ++ [setField (σ.heap.getD σ.state []) prop v]
    ∧ (∀ a, a < σ.heap.length →
        (syncWrite cfg σ prop arg).1.heap.getD a [] = σ.heap.getD a [])
    ∧ (∀ ws a, a < σ.heap.length →
        (chainWrites cfg σ ws).1.heap.getD a [] = σ.heap.getD a []) := by
  have hw : syncWrite cfg σ prop arg =
      (⟨σ.heap ++ [setField (σ.heap.getD σ.state []) prop v],
        σ.heap.length, σ.root⟩, none) := by
    simp [syncWrite, hm, hmw, hsk, himm]
  refine ⟨by rw [hw], by rw [hw], ?_, by rw [hw], ?_, ?_⟩
  · rw [hw]
    exact fun hc => absurd hwf (by simp [← hc])
  · intro a ha
    rw [hw]
    exact List.getD_append _ _ _ _ ha
  · intro ws a ha
    obtain ⟨ext, hext⟩ := chainWrites_imm_heap cfg himm ws σ
    rw [hext]
    exact List.getD_append _ _ _ _ ha

/-- Witness for C8: two immutable writes; the reference moves 0 → 1 → 2
and the record at address 0 (the pre-write snapshot) is unchanged after
both writes. -/
theorem immutable_write_fresh_reference_witness :
    (syncWrite ⟨true, [], []⟩ (initState []) "x" (.num 5)).2 = none
    ∧ (syncWrite ⟨true, [], []⟩ (initState []) "x" (.num 5)).1.state = 1
    ∧ (syncWrite ⟨true, [], []⟩ (initState []) "x" (.num 5)).1.state ≠ 0
    ∧ (chainWrites ⟨true, [], []⟩ (initState [])
        [("x", .num 5), ("y", .num 6)]).1.heap.getD 0 [] = [] := by
  have h := immutable_write_fresh_reference ⟨true, [], []⟩ (initState [])
    "x" (.num 5) (.num 5) rfl rfl rfl (by decide) (by decide)
  exact ⟨h.1, h.2.1, h.2.2.1,
    h.2.2.2.2.2 [("x", .num 5), ("y", .num 6)] 0 (by decide)⟩

/-- C2 (code bug, Queued engine): the queued task loop never tests for
the cancel sentinel, so a global middleware returning `SKIP` for a write
to `a` does not cancel it — the sentinel itself is committed as the
record's value for `a`, leaving the entry changed rather than untouched.
(On the Immediate engine the sentinel cancels as documented; see the C6,
C7, C8 and C10 developments of `runList`/`runMiddleware`.) -/
theorem queued_cancel_sentinel_committed :
    asyncChainDrain cfgAllSkip [] [("a", .num 1)] = .ok [("a", JVal.skip)]
    ∧ [("a", JVal.skip)] ≠ ([] : RecV)
    ∧ getField [("a", JVal.skip)] "a" = JVal.skip := by
  refine ⟨?_, by decide, rfl⟩
  rfl

/-- C3 (code bug): a write whose value is a nested-builder callback
marker does not construct a child builder.  On the Immediate engine the
source calls `chainer(childTarget, options, root)` — but no identifier
`chainer` exists after the rename to `chainit`, so the call raises a
`ReferenceError` and nothing is committed.  The Queued engine never
inspects the marker at all and commits the unresolved marker function as
the field's value. -/
theorem nested_builder_marker_bug :
    syncWrite ⟨false, [], []⟩ (initState []) "user" (.marker 0)
      = (initState [], some JErr.refErrChainer)
    ∧ asyncChainDrain ⟨false, [], []⟩ [] [("user", .marker 0)]
      = .ok [("user", JVal.marker 0)] :=
  ⟨rfl, rfl⟩

/-- C1 counterexample: with an increment registered under `props.a`, the
spec's two-stage pass maps an incoming 1 to 2, but the queued task
commits 1 — the per-field pipeline never ran. -/
theorem queued_two_stage_counterexample :
    asyncChainDrain cfgPropsInc [] [("a", .num 1)] = .ok [("a", .num 1)]
    ∧ specQueuedTwoStage cfgPropsInc "a" (.num 1) ⟨"a", 0, 0⟩ = .ok (.num 2)
    ∧ getField [("a", JVal.num 1)] "a" ≠ JVal.num 2 :=
  ⟨rfl, rfl, by decide⟩

/-- C1 amended: when a queued task's turn arrives it runs only the
global `use` list — every element unconditionally — against the record
current at that moment and commits the result; the run is independent of
the registered `props`, and in mutable mode the drained record is the
append-order fold of exactly that global-only pipeline. -/
theorem queued_global_only_pipeline (cfg : ACfg) (target : RecV)
    (ws : List (String × JVal)) :
    (∀ p2, asyncChainRun ⟨cfg.immutable, cfg.use, p2⟩ target ws
        = asyncChainRun cfg target ws)
    ∧ (cfg.immutable = false →
        asyncChainDrain cfg target ws = seqDrain cfg.use ws target) := by
  constructor
  · intro p2
    simp only [asyncChainRun]
    rw [runTasks_props_irrel cfg.immutable cfg.use cfg.props p2 0]
  · intro h
    exact asyncChainDrain_mutable cfg h target ws

/-- Witness for C1 amended: a concrete run ignores a non-empty `props`
table and drains to the global-only fold. -/
theorem queued_global_only_pipeline_witness :
    asyncChainRun ⟨false, [mwInc], [("z", [mwInc])]⟩ [] [("a", .num 1)]
      = asyncChainRun cfgMutInc [] [("a", .num 1)]
    ∧ asyncChainDrain cfgMutInc [] [("a", .num 1)]
      = seqDrain [mwInc] [("a", .num 1)] [] := by
  have h := queued_global_only_pipeline cfgMutInc [] [("a", .num 1)]
  exact ⟨h.1 [("z", [mwInc])], h.2 rfl⟩

/-- C4 counterexample: an immutable-mode queued chain of two writes
drains to the untouched initial record — the writes are lost, because
each chained handle captures the record reference of enqueue time. -/
theorem queued_immutable_chain_loses_writes :
    asyncChainDrain ⟨true, [], []⟩ [] [("a", .num 1), ("b", .num 2)]
      = .ok []
    ∧ ([] : RecV) ≠ [("a", JVal.num 1), ("b", JVal.num 2)] :=
  ⟨rfl, by decide⟩

/-- C4 amended: for a Queued Builder in mutable mode (the default),
for every sequence of writes whose middleware always completes, the
drain accessor resolves to the record with all writes applied strictly
in append order, one task at a time. -/
theorem queued_mutable_drain_append_order (cfg : ACfg) (target : RecV)
    (ws : List (String × JVal)) (himm : cfg.immutable = false)
    (hnf : NoFail cfg.use) :
    asyncChainDrain cfg target ws = .ok (seqRecord cfg.use ws target) := by
  rw [asyncChainDrain_mutable cfg himm target ws]
  unfold seqDrain
  rw [seqSpec_nofail cfg.use hnf ws target]

/-- Witness for C4 amended: three writes through a total global
middleware drain to the append-order fold. -/
theorem queued_mutable_drain_append_order_witness :
    asyncChainDrain cfgMutInc [] [("a", .num 1), ("b", .num 5), ("a", .num 9)]
      = .ok (seqRecord [mwInc] [("a", .num 1), ("b", .num 5), ("a", .num 9)]
          []) := by
  refine queued_mutable_drain_append_order cfgMutInc []
    [("a", .num 1), ("b", .num 5), ("a", .num 9)] rfl ?_
  intro m hm k v c
  simp only [cfgMutInc, List.mem_singleton] at hm
  subst hm
  cases v <;> exact ⟨_, rfl⟩

/-- C5 counterexample: with a global middleware that throws on field
`a`, the chain `a(1).b(2)` drains to that failure and the heap still
holds only the untouched initial record — the task for `b`, although
already appended, never executed (its write is absent everywhere). -/
theorem queued_failure_skips_later_tasks :
    asyncChainDrain cfgFailOnA [] [("a", .num 1), ("b", .num 2)]
      = .error (.thrown "boom")
    ∧ (asyncChainRun cfgFailOnA [] [("a", .num 1), ("b", .num 2)]).1.heap
      = [[]]
    ∧ getField [] "b" = JVal.undefined :=
  ⟨rfl, rfl, rfl⟩

/-- C5 amended: a failure in task n propagates through the drain
accessor as a failed deferred result, and every task appended after task
n is skipped outright — the rejected promise chain bypasses their `then`
callbacks, so the environment stays exactly as the failure left it. -/
theorem queued_failure_surfaces_and_skips_rest (cfg : ACfg) (root : Nat)
    (ts1 : List ATask) (t : ATask) (ts2 : List ATask) (env env1 : AEnv)
    (e : JErr)
    (h1 : runTasks cfg root ts1 env = (env1, none))
    (h2 : runTask cfg root env1 t = .error e) :
    runTasks cfg root (ts1 ++ t :: ts2) env = (env1, some e)
    ∧ ∀ (target : RecV) (ws : List (String × JVal)) (env2 : AEnv) (c : Nat),
        asyncChainRun cfg target ws = (env2, some e, c) →
        asyncChainDrain cfg target ws = .error e := by
  constructor
  · induction ts1 generalizing env with
    | nil =>
      have henv : env = env1 := congrArg Prod.fst h1
      subst henv
      simp [runTasks, h2]
    | cons t0 ts1 ih =>
      simp only [runTasks, List.cons_append] at h1 ⊢
      cases hrt : runTask cfg root env t0 with
      | error e0 =>
        rw [hrt] at h1
        simp at h1
      | ok env3 =>
        rw [hrt] at h1
        exact ih env3 h1
  · intro target ws env2 c h
    simp [asyncChainDrain, h]

/-- Witness for C5 amended: the failing two-task queue from the C5
setting, run through the theorem. -/
theorem queued_failure_surfaces_and_skips_rest_witness :
    runTasks cfgFailOnA 0 [⟨0, "a", .num 1⟩, ⟨1, "b", .num 2⟩]
        ⟨[[]], [0, 0, 0]⟩ = (⟨[[]], [0, 0, 0]⟩, some (.thrown "boom"))
    ∧ asyncChainDrain cfgFailOnA [] [("a", .num 1), ("b", .num 2)]
        = .error (.thrown "boom") := by
  have h := queued_failure_surfaces_and_skips_rest cfgFailOnA 0 []
    ⟨0, "a", .num 1⟩ [⟨1, "b", .num 2⟩] ⟨[[]], [0, 0, 0]⟩ ⟨[[]], [0, 0, 0]⟩
    (.thrown "boom") rfl rfl
  exact ⟨h.1, h.2 [] [("a", .num 1), ("b", .num 2)] ⟨[[]], [0, 0, 0]⟩ 2 rfl⟩
